import Mathlib

/-!
Shallow embedding of the graph-instantiation and scheduling engine of this
repository (an Apache Airflow snapshot).  The repository's visible source is
its test suite (`tests/decorators/test_python.py`) and packaging; the engine
itself (graph model, task-instance state machine, dependency evaluator,
dynamic-mapping expander, scheduler loop) is not shipped under `src/`, so
those components are modelled from the specification, while the task
decorator's declaration surface (task-id deduplication, `partial`/`map`
argument validation and registration) is embedded from the behaviour the
tests assert.
-/

namespace Airflow

/-- Task-instance states, from the spec's state machine (§4.3):
`none → scheduled → queued → running → {success, failed, up_for_retry,
skipped, upstream_failed, removed}`. -/
inductive TIState where
  | none
  | scheduled
  | queued
  | running
  | success
  | failed
  | up_for_retry
  | skipped
  | upstream_failed
  | removed
deriving DecidableEq, Repr

/-! ## Decorator declaration surface (embedded from the tests)

`tests/decorators/test_python.py` fixes the behaviour of calling a decorated
task several times in one DAG: the first call registers under the plain name
(with the enclosing group prefix prepended), and the k-th repeated call
registers under `name__k` (`test_multiple_calls`: `do_run`, `do_run__1`,
`do_run__2`; `test_call_20`: the 21st call of `__do_run` is `__do_run__20`;
`test_multiple_calls_in_task_group`: `KnightsOfNii.do_run`,
`KnightsOfNii.do_run__1`). -/

/-- One registered task call: the full base name (group-prefixed) and which
repetition of that base name it is (0 for the first call). -/
structure TaskRef where
  base : String
  idx : Nat
deriving DecidableEq, Repr

/-- The rendered task id: the base name itself for the first call, and
`base__k` for the k-th repeated call, as the tests assert. -/
def TaskRef.taskId (t : TaskRef) : String :=
  if t.idx = 0 then t.base else t.base ++ "__" ++ toString t.idx

/-- The task ids of a DAG's registered tasks, in registration order
(the tests' `dag.task_ids`). -/
def taskIds (dag : List TaskRef) : List String :=
  dag.map TaskRef.taskId

/-- Modelled from the tests: registering one more call of a decorated task.
The new call's repetition index is the number of previously registered calls
sharing its base name, so repeated names are deduplicated by renaming and
registration never fails. -/
def addTaskCall (dag : List TaskRef) (base : String) : List TaskRef :=
  dag ++ [⟨base, (dag.filter (fun t => t.base = base)).length⟩]

/-- Registering a sequence of calls left to right. -/
def addTaskCalls (dag : List TaskRef) (bases : List String) : List TaskRef :=
  bases.foldl addTaskCall dag

/-! ## `partial` / `map` argument validation and registration

Embedded from `test_mapped_decorator_invalid_args`, `test_mapped_decorator`
and `test_partial_mapped_decorator`: supplying a keyword-argument name that
is not in the decorated callable's signature raises `TypeError` at
declaration time (for both `partial` and `map`) and registers nothing;
`partial(...)` alone creates no operator; a completed `.map(...)` registers
one mapped operator carrying `partial_op_kwargs` and `mapped_kwargs`. -/

/-- A declaration-time type error: carries the unknown argument names, as in
the tests' `TypeError, match="arguments 'other', 'b'"`. -/
structure TypeErr where
  unknown : List String
deriving DecidableEq, Repr

/-- The supplied keyword-argument names that do not occur in the callable's
signature, in supplied order. -/
def unknownArgNames (sig : List String) (supplied : List String) : List String :=
  supplied.filter (fun n => ¬ n ∈ sig)

/-- A mapped operator as registered by a completed `partial(...).map(...)`
chain: the registered name (base plus repetition index, rendered as in
`TaskRef.taskId`), the decorated callable's signature, the static keyword
arguments given to `partial`, and the single runtime-mapped keyword
argument given to `map` (name plus the declared collection). -/
structure MappedTaskDef where
  ref : TaskRef
  sig : List String
  partial_op_kwargs : List (String × Int)
  mapped_arg_name : String
  mapped_values : List Int
deriving DecidableEq, Repr

/-- The mapped operator's rendered task id (`product`, `product__1`, ... in
`test_partial_mapped_decorator`). -/
def MappedTaskDef.task_id (t : MappedTaskDef) : String :=
  t.ref.taskId

/-- Modelled from the tests: `task.partial(**kwargs)` validates every
supplied name against the callable's signature and raises `TypeError`
listing the unknown names; on success it returns only a builder value (the
partial kwargs) and registers nothing. -/
def partialCall (sig : List String) (supplied : List (String × Int)) :
    Except TypeErr (List (String × Int)) :=
  match unknownArgNames sig (supplied.map Prod.fst) with
  | [] => .ok supplied
  | bad => .error ⟨bad⟩

/-- Modelled from the tests: `.map(name=collection)` validates the mapped
argument name (together with any partial names already held by the builder)
against the signature; on success it registers one mapped operator in the
DAG under a deduplicated task id, on failure it raises `TypeError` and the
DAG is untouched. -/
def mapCall (dag : List MappedTaskDef) (base : String) (sig : List String)
    (partialKwargs : List (String × Int)) (name : String) (values : List Int) :
    Except TypeErr (List MappedTaskDef) :=
  match unknownArgNames sig (partialKwargs.map Prod.fst ++ [name]) with
  | [] =>
      let idx := (dag.filter (fun t => t.ref.base = base)).length
      .ok (dag ++ [⟨⟨base, idx⟩, sig, partialKwargs, name, values⟩])
  | bad => .error ⟨bad⟩

/-- The tests' `dag.task_dict`, as the association of rendered task ids to
registered mapped operators, in registration order. -/
def task_dict (dag : List MappedTaskDef) : List (String × MappedTaskDef) :=
  dag.map (fun t => (t.task_id, t))

/-- One declaration statement at the DAG-building surface: either a
`partial(...)`-only call (never completed with `.map`), or a completed
`partial(...).map(...)` chain. -/
inductive Decl where
  | partialOnly (sig : List String) (partialKwargs : List (String × Int))
  | mapChain (base : String) (sig : List String)
      (partialKwargs : List (String × Int)) (name : String) (values : List Int)
deriving DecidableEq, Repr

/-- Modelled from the tests: the effect of one declaration statement on the
DAG's registered operators.  A `partial(...)`-only call creates no operator
(`test_partial_mapped_decorator`); a completed chain registers through
`mapCall`, which on a `TypeError` leaves the DAG untouched. -/
def applyDecl (dag : List MappedTaskDef) : Decl → List MappedTaskDef
  | .partialOnly _ _ => dag
  | .mapChain base sig pk name values =>
      match mapCall dag base sig pk name values with
      | .ok dag2 => dag2
      | .error _ => dag

/-- Running a sequence of declaration statements left to right. -/
def applyDecls (dag : List MappedTaskDef) (ds : List Decl) : List MappedTaskDef :=
  ds.foldl applyDecl dag

/-- Whether a declaration statement is a completed `.map(...)` chain. -/
def Decl.isMapChain : Decl → Bool
  | .partialOnly _ _ => false
  | .mapChain _ _ _ _ _ => true

/-! ## Dynamic Mapping Expander (modelled from the spec, §4.5)

The expander itself is not shipped under `src/`; it is modelled from the
spec: the resolved collection's length determines the map indices `0..n-1`,
one Task Instance per index, each receiving the partial static arguments
merged with its indexed slice of the mapped arguments; an empty collection
yields zero instances and vacuous `success`; re-invoking expansion is a
no-op keyed by (task name, run id). -/

/-- One materialized task instance: its key (task id, run id, map index)
and the keyword arguments it receives. -/
structure TaskInstanceRec where
  task_id : String
  run_id : String
  map_index : Nat
  kwargs : List (String × Int)
  state : TIState
deriving DecidableEq, Repr

/-- Modelled from the spec: the instances a mapped task definition expands
to for a run, given the resolved collection — one per index `0..n-1`, each
receiving the partial static arguments merged with its indexed slice of the
mapped argument. -/
def expandInstances (t : MappedTaskDef) (run_id : String) : List TaskInstanceRec :=
  (List.range t.mapped_values.length).map (fun i =>
    { task_id := t.task_id
      run_id := run_id
      map_index := i
      kwargs := t.partial_op_kwargs ++ [(t.mapped_arg_name, t.mapped_values.getD i 0)]
      state := TIState.none })

/-- Modelled from the spec: expansion against the run's existing instance
store.  Keyed by (task name, run id): if instances for that key already
exist it is a no-op, otherwise the expanded instances are appended. -/
def expandStore (t : MappedTaskDef) (run_id : String)
    (store : List TaskInstanceRec) : List TaskInstanceRec :=
  if store.any (fun ti => ti.task_id = t.task_id ∧ ti.run_id = run_id) then store
  else store ++ expandInstances t run_id

/-- Modelled from the spec: the aggregate state a mapped task reports for
downstream dependency purposes — an empty resolved collection is vacuous
`success`; otherwise the aggregate is `success` exactly when every resolved
index's instance is `success`, and not yet decided (reported `none`)
otherwise.  Only the empty-collection clause is used by the claims. -/
def mappedAggregateState (t : MappedTaskDef) (run_id : String)
    (store : List TaskInstanceRec) : TIState :=
  if t.mapped_values.length = 0 then TIState.success
  else if (store.filter (fun ti => ti.task_id = t.task_id ∧ ti.run_id = run_id)).all
      (fun ti => ti.state = TIState.success) ∧
      (store.filter (fun ti => ti.task_id = t.task_id ∧ ti.run_id = run_id)).length =
        t.mapped_values.length then
    TIState.success
  else TIState.none

/-- Modelled from the tests (`test_mapped_decorator_unmap_merge_op_kwargs`):
`unmap()` merges the partial keyword arguments with the mapped keyword
argument, so the unmapped operator's `op_kwargs` carries both name sets. -/
def unmapKwargNames (t : MappedTaskDef) : List String :=
  t.partial_op_kwargs.map Prod.fst ++ [t.mapped_arg_name]

/-! ## Retry policy (modelled from the spec, §4.3 and §8)

The state machine is not shipped under `src/`.  The spec's concrete retry
bound (§8: max-retries = 2 gives exactly the attempts with try-numbers
1, 2, 3, never a 4th) fixes the `failed → up_for_retry` gate for a
1-based try-number as `try_number ≤ max_retries` — equivalently, the
number of retries already performed is strictly below the maximum. -/

/-- Modelled from the spec: whether a task instance whose attempt with
1-based try-number `try_number` just failed transitions
`failed → up_for_retry` (true) or stays terminally `failed` (false), given
the configured maximum retry count. -/
def retryTransition (try_number : Nat) (max_retries : Nat) : Bool :=
  try_number ≤ max_retries

/-- Modelled from the spec: the 1-based try-numbers of the attempts an
always-failing task performs, starting from try-number `t`. -/
def failingAttemptsFrom (max_retries : Nat) : Nat → Nat → List Nat
  | 0, t => [t]
  | fuel + 1, t =>
      if retryTransition t max_retries then t :: failingAttemptsFrom max_retries fuel (t + 1)
      else [t]

/-- The try-numbers of all attempts of an always-failing task (the first
attempt has try-number 1). -/
def failingAttempts (max_retries : Nat) : List Nat :=
  failingAttemptsFrom max_retries max_retries 1

/-- Modelled from the spec: the state the instance ends in after an attempt
with try-number `t` fails. -/
def stateAfterFailure (try_number : Nat) (max_retries : Nat) : TIState :=
  if retryTransition try_number max_retries then TIState.up_for_retry
  else TIState.failed

/-! ## Dependency Evaluator: trigger rule `all_success`
(modelled from the spec, §4.3 and §4.4) -/

/-- The Dependency Evaluator's verdict for one pending instance (§4.4). -/
inductive DepResult where
  | notReady
  | ready
  | propagateUpstreamFailed
  | propagateSkip
deriving DecidableEq, Repr

/-- Whether a state is one that, under a trigger rule requiring success of
the upstream, dooms the downstream (§4.3: `failed`/`upstream_failed`/
`removed`). -/
def doomsDownstream (s : TIState) : Bool :=
  s = TIState.failed ∨ s = TIState.upstream_failed ∨ s = TIState.removed

/-- Modelled from the spec: the `all_success` trigger rule evaluated over
the current states of all upstream instances — any upstream in
`failed`/`upstream_failed`/`removed` propagates `upstream_failed`; ready
exactly when every upstream is `success`; otherwise not ready. -/
def evalAllSuccess (upstreams : List TIState) : DepResult :=
  if upstreams.any doomsDownstream then DepResult.propagateUpstreamFailed
  else if upstreams.all (fun s => s = TIState.success) then DepResult.ready
  else DepResult.notReady

/-- Modelled from the spec: the transition the Scheduler Loop applies to a
downstream instance currently in state `none`, from the evaluator's verdict:
`ready` schedules it, `propagateUpstreamFailed` marks it `upstream_failed`
without ever running it, `propagateSkip` skips it, otherwise it stays
`none`. -/
def applyDepResult (r : DepResult) : TIState :=
  match r with
  | DepResult.ready => TIState.scheduled
  | DepResult.propagateUpstreamFailed => TIState.upstream_failed
  | DepResult.propagateSkip => TIState.skipped
  | DepResult.notReady => TIState.none

/-! ## Admission compare-and-set (modelled from the spec, §5 and §8)

All state transitions are a compare-and-set on (key, expected prior state,
try-number); since each CAS is atomic on the shared store, any interleaving
of N concurrent passes is a sequence of N CAS attempts. -/

/-- A task-instance record as the shared store sees it for admission:
current state and try-number. -/
structure AdmissionSlot where
  state : TIState
  try_number : Nat
deriving DecidableEq, Repr

/-- Modelled from the spec: one scheduler pass's attempt to admit the
instance, as a compare-and-set from `scheduled` to `queued` at an expected
try-number.  Returns the new slot and whether this pass won the admission. -/
def casAdmit (slot : AdmissionSlot) (expected_try : Nat) : AdmissionSlot × Bool :=
  if slot.state = TIState.scheduled ∧ slot.try_number = expected_try then
    ({ slot with state := TIState.queued }, true)
  else (slot, false)

/-- Running `n` racing passes in their interleaving order and counting how
many win the admission CAS. -/
def admissionWins (slot : AdmissionSlot) (expected_try : Nat) : Nat → Nat
  | 0 => 0
  | n + 1 =>
      (if (casAdmit slot expected_try).2 then 1 else 0) +
        admissionWins (casAdmit slot expected_try).1 expected_try n

/-! ## Graph Model (modelled from the spec, §4.1)

`load(definition)` validates acyclicity and produces the deterministic
topological order used by the Scheduler Loop: at each step the
declaration-earliest task whose upstreams are all already placed is placed
next (stable tie-break: declaration order); if no task can be placed while
some remain, the definition is cyclic and `load` fails with
`CycleDetected`. -/

/-- Load-time errors (§4.1). -/
inductive GraphError where
  | CycleDetected
  | DuplicateTaskName
  | UnknownMapArgument
deriving DecidableEq, Repr

/-- A graph definition: task names in declaration order plus directed
edges (upstream, downstream). -/
structure GraphDef where
  tasks : List String
  edges : List (String × String)
deriving DecidableEq, Repr

/-- Whether `u → v` is one of the definition's edges. -/
def hasEdge (g : GraphDef) (u v : String) : Prop :=
  (u, v) ∈ g.edges

instance (g : GraphDef) (u v : String) : Decidable (hasEdge g u v) := by
  unfold hasEdge; infer_instance

/-- The declared upstream tasks of `t`. -/
def upstreams (g : GraphDef) (t : String) : List String :=
  (g.edges.filter (fun e => decide (e.2 = t))).map Prod.fst

/-- Well-formed definition: both endpoints of every edge are declared
tasks. -/
def EdgesWF (g : GraphDef) : Prop :=
  ∀ e ∈ g.edges, e.1 ∈ g.tasks ∧ e.2 ∈ g.tasks

/-- Modelled from the spec: the load-time topological pass.  `acc` holds
placed tasks most-recent first; `rem` keeps the unplaced tasks in
declaration order, so `find?` realises the declaration-order tie-break. -/
def topoGo (g : GraphDef) : Nat → List String → List String → Except GraphError (List String)
  | 0, acc, rem => if rem = [] then .ok acc.reverse else .error GraphError.CycleDetected
  | fuel + 1, acc, rem =>
      match rem.find? (fun t => (upstreams g t).all (fun u => decide (u ∈ acc))) with
      | some t => topoGo g fuel (t :: acc) (rem.erase t)
      | none => .error GraphError.CycleDetected

/-- Modelled from the spec: `load` validates acyclicity and returns the
topological order (`topological_order` of the loaded graph), or fails with
`CycleDetected`. -/
def load (g : GraphDef) : Except GraphError (List String) :=
  topoGo g g.tasks.length [] g.tasks

/-- Whether consecutive elements of the list are all edges of `g`. -/
def chainB (g : GraphDef) : List String → Bool
  | [] => true
  | [_] => true
  | a :: b :: rest => decide (hasEdge g a b) && chainB g (b :: rest)

/-- Whether the nonempty list is a directed cycle: consecutive edges, plus
the closing edge from its last element back to its head. -/
def isCycleList (g : GraphDef) : List String → Bool
  | [] => false
  | a :: rest => chainB g ((a :: rest) ++ [a])

/-- The definition contains a directed cycle. -/
def HasCycle (g : GraphDef) : Prop :=
  ∃ p, isCycleList g p = true

/-- Every task's declared upstreams appear strictly before it in the
order. -/
def ordOK (g : GraphDef) (order : List String) : Prop :=
  ∀ l1 v l2, order = l1 ++ v :: l2 → ∀ u, hasEdge g u v → u ∈ l1

/-- The invariant of the placed stack `acc` (most-recent first): every
placed task's upstreams were placed before it. -/
def accOK (g : GraphDef) (acc : List String) : Prop :=
  ∀ l1 v l2, acc = l1 ++ v :: l2 → ∀ u, hasEdge g u v → u ∈ l2

/-- The descending list of iterates `[f^[m] y, ..., f^[1] y]`, used to
exhibit a cycle among tasks that all keep an unplaced upstream. -/
def downChain (f : String → String) (y : String) : Nat → List String
  | 0 => []
  | m + 1 => f^[m + 1] y :: downChain f y m

/-- For a task `t`, some member of `R` that is an upstream of `t` (or `t`
itself when none exists); total by construction. -/
def stuckStep (g : GraphDef) (R : List String) (t : String) : String :=
  (R.find? (fun u => decide (hasEdge g u t))).getD t

/-! ## Helper lemmas -/

lemma mem_upstreams {g : GraphDef} {t u : String} :
    u ∈ upstreams g t ↔ hasEdge g u t := by
  unfold upstreams hasEdge
  constructor
  · intro h
    rcases List.mem_map.mp h with ⟨e, he, rfl⟩
    rcases List.mem_filter.mp he with ⟨hmem, hsnd⟩
    have h2 : e.2 = t := of_decide_eq_true hsnd
    rw [← h2]
    simpa using hmem
  · intro h
    exact List.mem_map.mpr ⟨(u, t), List.mem_filter.mpr ⟨h, by simp⟩, rfl⟩

lemma topoGo_error_eq (g : GraphDef) :
    ∀ fuel acc rem e, topoGo g fuel acc rem = .error e → e = GraphError.CycleDetected := by
  intro fuel
  induction fuel with
  | zero =>
      intro acc rem e h
      by_cases hr : rem = [] <;> simp [topoGo, hr] at h
      exact h.symm
  | succ n ih =>
      intro acc rem e h
      rw [topoGo] at h
      cases hfind : rem.find? (fun t => (upstreams g t).all (fun u => decide (u ∈ acc))) with
      | some t =>
          rw [hfind] at h
          exact ih _ _ _ h
      | none =>
          rw [hfind] at h
          simpa using h.symm

lemma accOK_cons {g : GraphDef} {acc : List String} {t : String}
    (hacc : accOK g acc) (ht : ∀ u, hasEdge g u t → u ∈ acc) : accOK g (t :: acc) := by
  intro l1 v l2 hsplit u hu
  cases l1 with
  | nil =>
      simp only [List.nil_append] at hsplit
      injection hsplit with h1 h2
      subst h1; subst h2
      exact ht u hu
  | cons a l1' =>
      simp only [List.cons_append] at hsplit
      injection hsplit with h1 h2
      exact hacc l1' v l2 h2 u hu

lemma accOK_reverse {g : GraphDef} {acc : List String} (hacc : accOK g acc) :
    ordOK g acc.reverse := by
  intro l1 v l2 hsplit u hu
  have hsplit2 : acc = l2.reverse ++ v :: l1.reverse := by
    have h := congrArg List.reverse hsplit
    simpa [List.reverse_append, List.append_assoc] using h
  have := hacc _ _ _ hsplit2 u hu
  simpa using this

lemma topoGo_ok_spec (g : GraphDef) :
    ∀ fuel acc rem order, topoGo g fuel acc rem = .ok order →
      accOK g acc → List.Perm (acc ++ rem) g.tasks →
      List.Perm order g.tasks ∧ ordOK g order := by
  intro fuel
  induction fuel with
  | zero =>
      intro acc rem order h hacc hperm
      by_cases hr : rem = [] <;> simp [topoGo, hr] at h
      subst hr
      rw [← h]
      refine ⟨(acc.reverse_perm).trans (by simpa using hperm), accOK_reverse hacc⟩
  | succ n ih =>
      intro acc rem order h hacc hperm
      rw [topoGo] at h
      cases hfind : rem.find? (fun t => (upstreams g t).all (fun u => decide (u ∈ acc))) with
      | some t =>
          rw [hfind] at h
          have hpt := List.find?_some hfind
          have htmem := List.mem_of_find?_eq_some hfind
          have hup : ∀ u, hasEdge g u t → u ∈ acc := by
            intro u hu
            exact of_decide_eq_true (List.all_eq_true.mp hpt u (mem_upstreams.mpr hu))
          have hperm2 : List.Perm ((t :: acc) ++ rem.erase t) g.tasks := by
            have h1 : List.Perm (acc ++ rem) (acc ++ (t :: rem.erase t)) :=
              List.Perm.append_left acc (List.perm_cons_erase htmem)
            have h2 : List.Perm (acc ++ (t :: rem.erase t)) (t :: (acc ++ rem.erase t)) :=
              List.perm_middle
            exact (h2.symm.trans h1.symm).trans hperm
          exact ih (t :: acc) (rem.erase t) order h (accOK_cons hacc hup) hperm2
      | none =>
          rw [hfind] at h
          simp at h

lemma edge_indexOf_lt {g : GraphDef} {order : List String} (hord : ordOK g order)
    (hnd : order.Nodup) {u v : String} (he : hasEdge g u v) (hv : v ∈ order) :
    order.indexOf u < order.indexOf v := by
  obtain ⟨l1, l2, rfl⟩ := List.append_of_mem hv
  have hu : u ∈ l1 := hord l1 v l2 rfl u he
  have hvl1 : v ∉ l1 := by
    intro hvmem
    exact (List.disjoint_of_nodup_append hnd) hvmem (List.mem_cons_self v l2)
  rw [List.indexOf_append_of_mem hu, List.indexOf_append_of_not_mem hvl1,
    List.indexOf_cons_self]
  simpa using List.indexOf_lt_length.mpr hu

lemma chainB_sources {g : GraphDef} :
    ∀ l, chainB g l = true → ∀ x ∈ l.dropLast, ∃ y, hasEdge g x y := by
  intro l
  induction l with
  | nil => intro _ x hx; simp at hx
  | cons a rest ih =>
      cases rest with
      | nil => intro _ x hx; simp at hx
      | cons b rest' =>
          intro h x hx
          rw [chainB] at h
          obtain ⟨h1, h2⟩ := (Bool.and_eq_true _ _).mp h
          have hab : hasEdge g a b := of_decide_eq_true h1
          rcases List.mem_cons.mp (by simpa [List.dropLast] using hx) with hxa | hx'
          · exact ⟨b, hxa ▸ hab⟩
          · exact ih h2 x hx'

lemma chainB_indexOf_lt {g : GraphDef} {order : List String} (hord : ordOK g order)
    (hnd : order.Nodup) :
    ∀ (l : List String) (b a : String), chainB g (b :: l ++ [a]) = true →
      (∀ x ∈ b :: l ++ [a], x ∈ order) → order.indexOf b < order.indexOf a := by
  intro l
  induction l with
  | nil =>
      intro b a h hmem
      have h' : chainB g (b :: [a]) = true := h
      rw [chainB] at h'
      obtain ⟨h1, _⟩ := (Bool.and_eq_true _ _).mp h'
      exact edge_indexOf_lt hord hnd (of_decide_eq_true h1) (hmem a (by simp))
  | cons c l' ih =>
      intro b a h hmem
      have h' : chainB g (b :: c :: (l' ++ [a])) = true := h
      rw [chainB] at h'
      obtain ⟨h1, h2⟩ := (Bool.and_eq_true _ _).mp h'
      have hlt1 : order.indexOf b < order.indexOf c :=
        edge_indexOf_lt hord hnd (of_decide_eq_true h1) (hmem c (by simp))
      have hlt2 := ih c a h2 (fun x hx => hmem x (by
        rcases List.mem_cons.mp hx with hxc | hx'
        · simp [hxc]
        · simp [List.mem_cons, List.mem_append] at hx' ⊢
          tauto))
      exact hlt1.trans hlt2

lemma ordOK_no_cycle {g : GraphDef} {order : List String} (hWF : EdgesWF g)
    (hord : ordOK g order) (hnd : order.Nodup)
    (hperm : List.Perm order g.tasks) : ¬ HasCycle g := by
  rintro ⟨p, hp⟩
  cases p with
  | nil => simp [isCycleList] at hp
  | cons b rest =>
      rw [isCycleList] at hp
      have hmem : ∀ x ∈ (b :: rest) ++ [b], x ∈ order := by
        intro x hx
        have hx' : x ∈ b :: rest := by
          rcases List.mem_append.mp hx with h' | h'
          · exact h'
          · simp [List.mem_singleton.mp h']
        obtain ⟨y, hy⟩ := chainB_sources _ hp x (by
          rw [List.dropLast_concat]; exact hx')
        exact (hperm.mem_iff).mpr ((hWF (x, y) hy).1)
      exact lt_irrefl _ (chainB_indexOf_lt hord hnd rest b b hp hmem)

lemma stuckStep_spec {g : GraphDef} {R : List String} {t : String}
    (h : ∃ u ∈ R, hasEdge g u t) :
    stuckStep g R t ∈ R ∧ hasEdge g (stuckStep g R t) t := by
  obtain ⟨u, hu, hedge⟩ := h
  unfold stuckStep
  cases hfind : R.find? (fun u => decide (hasEdge g u t)) with
  | none =>
      exact absurd (decide_eq_true hedge) (List.find?_eq_none.mp hfind u hu)
  | some w =>
      have h1 := List.find?_some hfind
      have h2 : w ∈ R := List.mem_of_find?_eq_some hfind
      simp only [Option.getD_some]
      exact ⟨h2, of_decide_eq_true (by simpa using h1)⟩

lemma stuckStep_iterate_mem {g : GraphDef} {R : List String}
    (h : ∀ t ∈ R, ∃ u ∈ R, hasEdge g u t) {y : String} (hy : y ∈ R) :
    ∀ k, (stuckStep g R)^[k] y ∈ R := by
  intro k
  induction k with
  | zero => simpa using hy
  | succ k ih =>
      rw [Function.iterate_succ_apply']
      exact (stuckStep_spec (h _ ih)).1

lemma chainB_downChain {g : GraphDef} {R : List String}
    (h : ∀ t ∈ R, ∃ u ∈ R, hasEdge g u t) {y : String} (hy : y ∈ R) :
    ∀ m, chainB g (downChain (stuckStep g R) y (m + 1) ++ [y]) = true := by
  intro m
  induction m with
  | zero =>
      have hedge : hasEdge g (stuckStep g R y) y := (stuckStep_spec (h y hy)).2
      simp [downChain, chainB, hedge]
  | succ m ih =>
      have hedge : hasEdge g ((stuckStep g R)^[m + 2] y) ((stuckStep g R)^[m + 1] y) := by
        rw [Function.iterate_succ_apply']
        exact (stuckStep_spec (h _ (stuckStep_iterate_mem h hy (m + 1)))).2
      have hstep : downChain (stuckStep g R) y (m + 2) ++ [y] =
          (stuckStep g R)^[m + 2] y :: (downChain (stuckStep g R) y (m + 1) ++ [y]) := rfl
      rw [hstep]
      have hstep2 : downChain (stuckStep g R) y (m + 1) ++ [y] =
          (stuckStep g R)^[m + 1] y :: (downChain (stuckStep g R) y m ++ [y]) := rfl
      rw [hstep2]
      rw [chainB]
      rw [hstep2] at ih
      exact (Bool.and_eq_true _ _).mpr ⟨decide_eq_true hedge, ih⟩

lemma stuck_has_cycle {g : GraphDef} {R : List String} (hne : R ≠ [])
    (h : ∀ t ∈ R, ∃ u ∈ R, hasEdge g u t) : HasCycle g := by
  obtain ⟨y0, hy0⟩ := List.exists_mem_of_ne_nil R hne
  have hiter := stuckStep_iterate_mem h hy0
  have hcard : R.toFinset.card < (Finset.range (R.length + 1)).card := by
    have := R.toFinset_card_le
    simp only [Finset.card_range]
    omega
  obtain ⟨i, hi, j, hj, hne', heq⟩ :=
    Finset.exists_ne_map_eq_of_card_lt_of_maps_to hcard
      (fun k _ => List.mem_toFinset.mpr (hiter k))
  have hpair : ∃ i j, i < j ∧ (stuckStep g R)^[i] y0 = (stuckStep g R)^[j] y0 := by
    rcases Nat.lt_or_gt_of_ne hne' with h' | h'
    · exact ⟨i, j, h', heq⟩
    · exact ⟨j, i, h', heq.symm⟩
  obtain ⟨a, b, hab, heq'⟩ := hpair
  have hyR : (stuckStep g R)^[a] y0 ∈ R := hiter a
  have hfix : (stuckStep g R)^[b - a] ((stuckStep g R)^[a] y0) = (stuckStep g R)^[a] y0 := by
    rw [← Function.iterate_add_apply, Nat.sub_add_cancel (le_of_lt hab)]
    exact heq'.symm
  obtain ⟨m, hm⟩ : ∃ m, b - a = m + 1 := ⟨b - a - 1, by omega⟩
  refine ⟨downChain (stuckStep g R) ((stuckStep g R)^[a] y0) (m + 1), ?_⟩
  have hhead : (stuckStep g R)^[m + 1] ((stuckStep g R)^[a] y0) = (stuckStep g R)^[a] y0 := by
    rw [← hm]; exact hfix
  have hshape : isCycleList g (downChain (stuckStep g R) ((stuckStep g R)^[a] y0) (m + 1)) =
      chainB g (downChain (stuckStep g R) ((stuckStep g R)^[a] y0) (m + 1) ++
        [(stuckStep g R)^[m + 1] ((stuckStep g R)^[a] y0)]) := rfl
  rw [hshape, hhead]
  exact chainB_downChain h hyR m

lemma topoGo_progress (g : GraphDef) (hWF : EdgesWF g) :
    ∀ fuel acc rem, fuel = rem.length → List.Perm (acc ++ rem) g.tasks →
      ¬ HasCycle g → ∃ order, topoGo g fuel acc rem = .ok order := by
  intro fuel
  induction fuel with
  | zero =>
      intro acc rem hlen _ _
      have hr : rem = [] := List.eq_nil_of_length_eq_zero hlen.symm
      exact ⟨acc.reverse, by simp [topoGo, hr]⟩
  | succ n ih =>
      intro acc rem hlen hperm hnc
      cases hfind : rem.find? (fun t => (upstreams g t).all (fun u => decide (u ∈ acc))) with
      | some t =>
          have htmem := List.mem_of_find?_eq_some hfind
          have hlen' : n = (rem.erase t).length := by
            have := List.length_erase_add_one htmem
            omega
          have hperm2 : List.Perm ((t :: acc) ++ rem.erase t) g.tasks := by
            have h1 : List.Perm (acc ++ rem) (acc ++ (t :: rem.erase t)) :=
              List.Perm.append_left acc (List.perm_cons_erase htmem)
            have h2 : List.Perm (acc ++ (t :: rem.erase t)) (t :: (acc ++ rem.erase t)) :=
              List.perm_middle
            exact (h2.symm.trans h1.symm).trans hperm
          obtain ⟨order, hord⟩ := ih (t :: acc) (rem.erase t) hlen' hperm2 hnc
          refine ⟨order, ?_⟩
          rw [topoGo, hfind]
          exact hord
      | none =>
          exfalso
          apply hnc
          have hne : rem ≠ [] := by
            intro hr
            rw [hr] at hlen
            simp at hlen
          apply stuck_has_cycle hne
          intro t ht
          have hnall := List.find?_eq_none.mp hfind t ht
          have hex : ∃ u ∈ upstreams g t, ¬ (u ∈ acc) := by
            by_contra hcon
            push_neg at hcon
            exact hnall (List.all_eq_true.mpr (fun u hu => decide_eq_true (hcon u hu)))
          obtain ⟨u, huup, hunotacc⟩ := hex
          have hedge : hasEdge g u t := mem_upstreams.mp huup
          have hutasks : u ∈ g.tasks := (hWF (u, t) hedge).1
          have humem : u ∈ acc ++ rem := (hperm.mem_iff).mpr hutasks
          rcases List.mem_append.mp humem with h' | h'
          · exact absurd h' hunotacc
          · exact ⟨u, h', hedge⟩

lemma unknownArgNames_ne_nil {sig l : List String} (h : ∃ n ∈ l, ¬ n ∈ sig) :
    unknownArgNames sig l ≠ [] := by
  obtain ⟨n, hn, hns⟩ := h
  intro hnil
  have h2 := List.filter_eq_nil_iff.mp hnil n hn
  simp at h2
  exact hns h2

/-! ## Claims -/

/-- C1 — counterexample.  The claim says a second task definition with the
same name makes loading fail with `DuplicateTaskName` and that no renamed or
deduplicated tasks result; but the embedded declaration surface (from
`test_multiple_calls`) registers the repeated calls under the deduplicated
ids `do_run__1`, `do_run__2` and never fails. -/
theorem C1_counterexample :
    taskIds (addTaskCalls [] ["do_run", "do_run", "do_run"]) =
      ["do_run", "do_run__1", "do_run__2"] := rfl

/-- C1 — amended: registering a task definition whose name (within its
group prefix) is already present in the DAG does not fail; the new call is
registered under the deduplicated id `base__k`, where `k` is the number of
previously registered definitions with that base name, and all previously
registered tasks are left unchanged. -/
theorem C1_duplicate_name_renames (dag : List TaskRef) (base : String)
    (h : base ∈ dag.map TaskRef.base) :
    taskIds (addTaskCall dag base) =
      taskIds dag ++
        [base ++ "__" ++ toString (dag.filter (fun t => t.base = base)).length] := by
  have hpos : (dag.filter (fun t => t.base = base)).length ≠ 0 := by
    obtain ⟨t, ht, hb⟩ := List.mem_map.mp h
    have : t ∈ dag.filter (fun t => t.base = base) :=
      List.mem_filter.mpr ⟨ht, by simp [hb]⟩
    have := List.length_pos_of_mem this
    omega
  unfold addTaskCall taskIds
  rw [List.map_append]
  simp [TaskRef.taskId, hpos]

/-- C1 — witness for the amended theorem at the `test_multiple_calls`
scenario. -/
theorem C1_duplicate_name_renames_witness :
    taskIds (addTaskCall (addTaskCall [] "do_run") "do_run") =
      taskIds (addTaskCall [] "do_run") ++
        ["do_run" ++ "__" ++
          toString ((addTaskCall [] "do_run").filter (fun t => t.base = "do_run")).length] :=
  C1_duplicate_name_renames (addTaskCall [] "do_run") "do_run" (by decide)

/-- C2: supplying a `partial`- or `map`-argument name not present in the
target callable's signature fails with a declaration-time `TypeError` and
registers no task in the DAG. -/
theorem C2_unknown_arg_rejected (sig : List String) (supplied : List (String × Int))
    (dag : List MappedTaskDef) (base name : String)
    (pk : List (String × Int)) (values : List Int) :
    ((∃ n ∈ supplied.map Prod.fst, ¬ n ∈ sig) →
      ∃ e, partialCall sig supplied = .error e) ∧
    ((∃ n ∈ pk.map Prod.fst ++ [name], ¬ n ∈ sig) →
      (∃ e, mapCall dag base sig pk name values = .error e) ∧
      applyDecl dag (Decl.mapChain base sig pk name values) = dag) := by
  constructor
  · intro h
    have hne := unknownArgNames_ne_nil h
    unfold partialCall
    cases hu : unknownArgNames sig (supplied.map Prod.fst) with
    | nil => exact absurd hu hne
    | cons b bs => exact ⟨⟨b :: bs⟩, rfl⟩
  · intro h
    have hne := unknownArgNames_ne_nil h
    have herr : ∃ e, mapCall dag base sig pk name values = .error e := by
      unfold mapCall
      cases hu : unknownArgNames sig (pk.map Prod.fst ++ [name]) with
      | nil => exact absurd hu hne
      | cons b bs => exact ⟨⟨b :: bs⟩, rfl⟩
    refine ⟨herr, ?_⟩
    obtain ⟨e, he⟩ := herr
    simp [applyDecl, he]

/-- C2 — witness at the `test_mapped_decorator_invalid_args` scenario:
`double.partial(other=1, b=97)` and `double.map(other=[1])` are both
rejected and the DAG stays empty. -/
theorem C2_unknown_arg_rejected_witness :
    (∃ e, partialCall ["number"] [("other", 1), ("b", 97)] = .error e) ∧
    ((∃ e, mapCall [] "double" ["number"] [] "other" [1] = .error e) ∧
      applyDecl [] (Decl.mapChain "double" ["number"] [] "other" [1]) = []) :=
  ⟨(C2_unknown_arg_rejected ["number"] [("other", 1), ("b", 97)] [] "double" "other" [] [1]).1
      ⟨"other", by decide, by decide⟩,
    (C2_unknown_arg_rejected ["number"] [("other", 1), ("b", 97)] [] "double" "other" [] [1]).2
      ⟨"other", by decide, by decide⟩⟩

/-- C3: dynamic mapping expansion is idempotent — re-invoking expansion for
the same (task name, run id) after it has already run creates no further
task instances. -/
theorem C3_expansion_idempotent (t : MappedTaskDef) (run_id : String)
    (store : List TaskInstanceRec) :
    expandStore t run_id (expandStore t run_id store) = expandStore t run_id store := by
  by_cases h : store.any (fun ti => decide (ti.task_id = t.task_id ∧ ti.run_id = run_id)) = true
  · have hE : expandStore t run_id store = store := by
      unfold expandStore
      rw [if_pos h]
    rw [hE]
    exact hE
  · have hE : expandStore t run_id store = store ++ expandInstances t run_id := by
      unfold expandStore
      rw [if_neg h]
    by_cases h2 : t.mapped_values.length = 0
    · have hinst : expandInstances t run_id = [] := by simp [expandInstances, h2]
      rw [hinst, List.append_nil] at hE
      rw [hE]
      exact hE
    · have hmem : ((store ++ expandInstances t run_id).any
          (fun ti => decide (ti.task_id = t.task_id ∧ ti.run_id = run_id))) = true := by
        have hne : expandInstances t run_id ≠ [] := by
          unfold expandInstances
          simp [h2]
        obtain ⟨ti, hti⟩ := List.exists_mem_of_ne_nil _ hne
        apply List.any_eq_true.mpr
        refine ⟨ti, List.mem_append_right _ hti, ?_⟩
        obtain ⟨i, hi, rfl⟩ := List.mem_map.mp hti
        simp
      rw [hE]
      unfold expandStore
      rw [if_pos hmem]

/-- C5: a mapped task whose map-argument collection resolves to the empty
collection expands to zero task instances and is immediately treated as
fully `success` for downstream dependency evaluation. -/
theorem C5_empty_collection_vacuous_success (t : MappedTaskDef) (run_id : String)
    (store : List TaskInstanceRec) (h : t.mapped_values = []) :
    expandInstances t run_id = [] ∧
    mappedAggregateState t run_id store = TIState.success := by
  constructor
  · simp [expandInstances, h]
  · simp [mappedAggregateState, h]

/-- C5 — witness: a mapped `double` declared over the empty literal
collection. -/
theorem C5_empty_collection_vacuous_success_witness :
    expandInstances ⟨⟨"double", 0⟩, ["number"], [], "number", []⟩ "run1" = [] ∧
    mappedAggregateState ⟨⟨"double", 0⟩, ["number"], [], "number", []⟩ "run1" [] =
      TIState.success :=
  C5_empty_collection_vacuous_success ⟨⟨"double", 0⟩, ["number"], [], "number", []⟩ "run1" [] rfl

/-- C4: expansion of a mapped task over a collection of length `n ≥ 1`
creates exactly one instance per map index `0..n-1`; the instance at index
`i` receives the partial static arguments merged with index `i`'s slice of
the mapped argument, and the unmapped operator's keyword-argument names
carry both the partial and the mapped names. -/
theorem C4_expansion_per_index (t : MappedTaskDef) (run_id : String)
    (i : Nat) (hi : i < t.mapped_values.length) :
    (expandInstances t run_id).length = t.mapped_values.length ∧
    (expandInstances t run_id).get? i =
      some ⟨t.task_id, run_id, i,
        t.partial_op_kwargs ++ [(t.mapped_arg_name, t.mapped_values.getD i 0)],
        TIState.none⟩ ∧
    t.mapped_arg_name ∈ unmapKwargNames t ∧
    (∀ n ∈ t.partial_op_kwargs.map Prod.fst, n ∈ unmapKwargNames t) := by
  refine ⟨by simp [expandInstances], ?_, by simp [unmapKwargNames], ?_⟩
  · unfold expandInstances
    rw [List.get?_map, List.get?_range hi]
    rfl
  · intro n hn
    simp [unmapKwargNames]
    exact Or.inl (by simpa using hn)

/-- C4 — witness at the `test_partial_mapped_decorator` scenario:
`product.partial(multiple=3).map(number=[1, 2, 3])`, map index 1. -/
theorem C4_expansion_per_index_witness :
    (expandInstances ⟨⟨"product", 0⟩, ["number", "multiple"], [("multiple", 3)],
        "number", [1, 2, 3]⟩ "r").get? 1 =
      some ⟨"product", "r", 1, [("multiple", 3), ("number", 2)], TIState.none⟩ :=
  (C4_expansion_per_index ⟨⟨"product", 0⟩, ["number", "multiple"], [("multiple", 3)],
    "number", [1, 2, 3]⟩ "r" 1 (by decide)).2.1

/-- C6 — counterexample.  The claim states the `failed → up_for_retry`
transition occurs only while try-number is strictly below the configured
max retries, yet also that max-retries = 2 yields attempts with try-numbers
1, 2, 3: in the model fixed by the latter (spec §8), the transition fires
at try-number 2 with max retries 2 although `2 < 2` is false. -/
theorem C6_counterexample : retryTransition 2 2 = true ∧ ¬ (2 < 2) :=
  ⟨rfl, by omega⟩

lemma failingAttemptsFrom_eq (m : Nat) :
    ∀ fuel t, t + fuel = m + 1 → failingAttemptsFrom m fuel t = List.range' t (fuel + 1) := by
  intro fuel
  induction fuel with
  | zero => intro t _; rfl
  | succ n ih =>
      intro t ht
      have hle : t ≤ m := by omega
      have hgate : retryTransition t m = true := decide_eq_true hle
      rw [failingAttemptsFrom, if_pos hgate, ih (t + 1) (by omega)]
      rfl

/-- C6 — amended: the `failed → up_for_retry` transition occurs exactly
while the 1-based try-number is at most the configured max retries (i.e.
while the count of retries already performed is strictly below the
maximum); an always-failing task with max-retries `m` hence performs the
attempts with try-numbers `1..m+1` — for max-retries = 2 exactly the
attempts 1, 2, 3, ending terminally `failed`, and never a 4th. -/
theorem C6_retry_bound :
    (∀ t m, retryTransition t m = true ↔ t ≤ m) ∧
    (∀ m, failingAttempts m = List.range' 1 (m + 1)) ∧
    (∀ m, (failingAttempts m).length = m + 1) ∧
    failingAttempts 2 = [1, 2, 3] ∧
    stateAfterFailure 2 2 = TIState.up_for_retry ∧
    stateAfterFailure 3 2 = TIState.failed := by
  have h2 : ∀ m, failingAttempts m = List.range' 1 (m + 1) := fun m =>
    failingAttemptsFrom_eq m m 1 (by omega)
  refine ⟨?_, h2, ?_, ?_, rfl, rfl⟩
  · intro t m
    simp [retryTransition]
  · intro m
    rw [h2, List.length_range']
  · rw [h2 2]
    rfl

/-- C7: under the `all_success` trigger rule a pending downstream instance
is scheduled exactly when every upstream instance is `success`, and any
upstream in `failed`/`upstream_failed`/`removed` sends it to
`upstream_failed` without ever running. -/
theorem C7_all_success_rule (ups : List TIState) :
    (applyDepResult (evalAllSuccess ups) = TIState.scheduled ↔
      ∀ s ∈ ups, s = TIState.success) ∧
    ((∃ s ∈ ups, doomsDownstream s = true) →
      evalAllSuccess ups = DepResult.propagateUpstreamFailed ∧
      applyDepResult (evalAllSuccess ups) = TIState.upstream_failed) := by
  by_cases hdoom : ups.any doomsDownstream = true
  · have heval : evalAllSuccess ups = DepResult.propagateUpstreamFailed := by
      unfold evalAllSuccess
      rw [if_pos hdoom]
    refine ⟨?_, fun _ => ⟨heval, by rw [heval]; rfl⟩⟩
    rw [heval]
    constructor
    · intro h
      exact absurd h (by simp [applyDepResult])
    · intro hall
      exfalso
      obtain ⟨s, hs, hds⟩ := List.any_eq_true.mp hdoom
      rw [hall s hs] at hds
      simp [doomsDownstream] at hds
  · have hno : ∀ s ∈ ups, doomsDownstream s = false := by
      intro s hs
      by_contra hc
      exact hdoom (List.any_eq_true.mpr ⟨s, hs, by simpa using hc⟩)
    refine ⟨?_, fun ⟨s, hs, hds⟩ => absurd hds (by simp [hno s hs])⟩
    unfold evalAllSuccess
    rw [if_neg hdoom]
    by_cases hall : ups.all (fun s => decide (s = TIState.success)) = true
    · rw [if_pos hall]
      simp only [applyDepResult]
      constructor
      · intro _ s hs
        exact of_decide_eq_true (List.all_eq_true.mp hall s hs)
      · intro _
        trivial
    · rw [if_neg hall]
      constructor
      · intro h
        exact absurd h (by simp [applyDepResult])
      · intro h
        exact absurd (List.all_eq_true.mpr (fun s hs => decide_eq_true (h s hs))) hall

/-- C7 — witness: two successful upstreams schedule the downstream; one
failed upstream propagates `upstream_failed`. -/
theorem C7_all_success_rule_witness :
    applyDepResult (evalAllSuccess [TIState.success, TIState.success]) = TIState.scheduled ∧
    evalAllSuccess [TIState.success, TIState.failed] = DepResult.propagateUpstreamFailed :=
  ⟨(C7_all_success_rule [TIState.success, TIState.success]).1.mpr (by decide),
    ((C7_all_success_rule [TIState.success, TIState.failed]).2
      ⟨TIState.failed, by decide, rfl⟩).1⟩

lemma admissionWins_not_scheduled (s : AdmissionSlot) (e : Nat)
    (h : ¬ s.state = TIState.scheduled) : ∀ n, admissionWins s e n = 0 := by
  intro n
  induction n with
  | zero => rfl
  | succ k ih =>
      have hcas : casAdmit s e = (s, false) := by
        unfold casAdmit
        rw [if_neg (by simp [h])]
      rw [admissionWins, hcas]
      simpa using ih

lemma admissionWins_le_one (e : Nat) : ∀ (n : Nat) (s : AdmissionSlot),
    admissionWins s e n ≤ 1 := by
  intro n
  induction n with
  | zero => intro s; simp [admissionWins]
  | succ k ih =>
      intro s
      by_cases hc : s.state = TIState.scheduled ∧ s.try_number = e
      · have hcas : casAdmit s e = ({ s with state := TIState.queued }, true) := by
          unfold casAdmit
          rw [if_pos hc]
        rw [admissionWins, hcas]
        have h0 := admissionWins_not_scheduled { s with state := TIState.queued } e (by simp) k
        simp [h0]
      · have hcas : casAdmit s e = (s, false) := by
          unfold casAdmit
          rw [if_neg hc]
        rw [admissionWins, hcas]
        simpa using ih s

/-- C9: for any number `n ≥ 1` of concurrent scheduler passes racing on a
ready (`scheduled`) task instance, exactly one pass wins the
compare-and-set admission into `queued` — and on any slot whatsoever at
most one pass can ever win, so two passes can never both admit the same
instance. -/
theorem C9_at_most_one_admission (slot : AdmissionSlot) (n : Nat)
    (h : slot.state = TIState.scheduled) (hn : 1 ≤ n) :
    admissionWins slot slot.try_number n = 1 ∧
    ∀ (s2 : AdmissionSlot) (e m : Nat), admissionWins s2 e m ≤ 1 := by
  refine ⟨?_, fun s2 e m => admissionWins_le_one e m s2⟩
  obtain ⟨k, rfl⟩ : ∃ k, n = k + 1 := ⟨n - 1, by omega⟩
  have hcas : casAdmit slot slot.try_number = ({ slot with state := TIState.queued }, true) := by
    unfold casAdmit
    rw [if_pos ⟨h, rfl⟩]
  rw [admissionWins, hcas]
  have h0 := admissionWins_not_scheduled { slot with state := TIState.queued }
    slot.try_number (by simp) k
  simp [h0]

/-- C9 — witness: three passes race on a scheduled instance at try-number
1; exactly one admits it. -/
theorem C9_at_most_one_admission_witness :
    admissionWins ⟨TIState.scheduled, 1⟩ (AdmissionSlot.try_number ⟨TIState.scheduled, 1⟩) 3 = 1 ∧
    ∀ (s2 : AdmissionSlot) (e m : Nat), admissionWins s2 e m ≤ 1 :=
  C9_at_most_one_admission ⟨TIState.scheduled, 1⟩ 3 rfl (by omega)

lemma applyDecls_filter (ds : List Decl) :
    ∀ dag, applyDecls dag ds = applyDecls dag (ds.filter Decl.isMapChain) := by
  induction ds with
  | nil => intro _; rfl
  | cons d rest ih =>
      intro dag
      cases d with
      | partialOnly sig pk =>
          have hfil : (Decl.partialOnly sig pk :: rest).filter Decl.isMapChain =
              rest.filter Decl.isMapChain := by
            rw [List.filter_cons_of_neg]
            simp [Decl.isMapChain]
          rw [hfil]
          show applyDecls (applyDecl dag (Decl.partialOnly sig pk)) rest =
            applyDecls dag (rest.filter Decl.isMapChain)
          exact ih dag
      | mapChain base sig pk name values =>
          have hfil : (Decl.mapChain base sig pk name values :: rest).filter Decl.isMapChain =
              Decl.mapChain base sig pk name values :: rest.filter Decl.isMapChain := by
            rw [List.filter_cons_of_pos]
            rfl
          rw [hfil]
          show applyDecls (applyDecl dag (Decl.mapChain base sig pk name values)) rest =
            applyDecls (applyDecl dag (Decl.mapChain base sig pk name values))
              (rest.filter Decl.isMapChain)
          exact ih _

/-- C10: a `partial(...)` call on a decorated task without a subsequent
`.map(...)` registers no operator: it leaves the DAG unchanged, the DAG
built by a declaration sequence is exactly the one built by its completed
`.map(...)` chains alone, and in the `test_partial_mapped_decorator`
scenario the task dictionary holds exactly `product`, `product__1`,
`product__2`. -/
theorem C10_partial_only_registers_nothing (dag : List MappedTaskDef)
    (ds : List Decl) (sig : List String) (pk : List (String × Int)) :
    applyDecl dag (Decl.partialOnly sig pk) = dag ∧
    applyDecls dag ds = applyDecls dag (ds.filter Decl.isMapChain) ∧
    (task_dict (applyDecls []
      [Decl.mapChain "product" ["number", "multiple"] [("multiple", 3)] "number" [1, 2, 3],
        Decl.mapChain "product" ["number", "multiple"] [("multiple", 2)] "number" [1, 2, 3],
        Decl.mapChain "product" ["number", "multiple"] [("multiple", 3)] "number" [1, 2, 3],
        Decl.partialOnly ["number", "multiple"] [("multiple", 2)]])).map Prod.fst =
      ["product", "product__1", "product__2"] :=
  ⟨rfl, applyDecls_filter ds dag, by decide⟩

lemma accOK_nil (g : GraphDef) : accOK g [] := by
  intro l1 v l2 h u _
  exact absurd h (by simp)

/-- C8: loading a well-formed graph definition with a cycle fails with
`CycleDetected`; loading an acyclic one succeeds and the returned
topological order (deterministic by construction, with the
declaration-order tie-break realised by scanning the unplaced tasks in
declaration order) contains every task exactly once with every task's
upstreams placed strictly before it. -/
theorem C8_load_topological (g : GraphDef) (hWF : EdgesWF g) (hnd : g.tasks.Nodup) :
    (HasCycle g → load g = .error GraphError.CycleDetected) ∧
    (¬ HasCycle g → ∃ order, load g = .ok order ∧ List.Perm order g.tasks ∧
      (∀ t ∈ g.tasks, order.count t = 1) ∧ ordOK g order) := by
  constructor
  · intro hcyc
    cases hload : load g with
    | ok order =>
        exfalso
        obtain ⟨hperm, hord⟩ :=
          topoGo_ok_spec g g.tasks.length [] g.tasks order hload (accOK_nil g) (by simp)
        exact ordOK_no_cycle hWF hord (hperm.symm.nodup hnd) hperm hcyc
    | error e =>
        rw [topoGo_error_eq g g.tasks.length [] g.tasks e hload]
  · intro hnc
    obtain ⟨order, hord⟩ :=
      topoGo_progress g hWF g.tasks.length [] g.tasks rfl (by simp) hnc
    obtain ⟨hperm, hordOK⟩ :=
      topoGo_ok_spec g g.tasks.length [] g.tasks order hord (accOK_nil g) (by simp)
    have hnd2 : order.Nodup := hperm.symm.nodup hnd
    exact ⟨order, hord, hperm,
      fun t ht => List.count_eq_one_of_mem hnd2 (hperm.mem_iff.mpr ht), hordOK⟩

/-- C8 — witness: the two-task cyclic definition `a → b → a` is rejected
with `CycleDetected`. -/
theorem C8_load_topological_witness :
    load ⟨["a", "b"], [("a", "b"), ("b", "a")]⟩ = .error GraphError.CycleDetected :=
  (C8_load_topological ⟨["a", "b"], [("a", "b"), ("b", "a")]⟩
      (by unfold EdgesWF; decide) (by decide)).1
    ⟨["a", "b"], by decide⟩
